import Mathlib

/-!
Shallow embedding of `src/Santa.ts` (a browser cookie manager: a `Cookie`
record class and a `Cookies` manager class) and proofs about its operations.

Modelling conventions:
* JS strings are Lean `String`s; the string operations the source uses
  (`split` on a single-character separator, `trim`) are re-implemented
  structurally on `List Char` so that they evaluate in the kernel.
* JS `Date` objects are modelled by the inductive `DateV`: `new Date(s)`
  is `DateV.ofString s` and `new Date(0)` is `DateV.ofMillis 0`.  The JS
  rendering of a date inside a template literal is host-dependent, so the
  serialization function takes it as an explicit parameter `ds`.
* `undefined`-able fields become `Option`s; JS truthiness of a string is
  `s ≠ ""`, of a `Date` is `isSome`, of `boolean | undefined` is `== some true`.
* Mutating methods of the manager are modelled as functions from the
  cookie list to `result × new-cookie-list × list-of-store-writes`, where
  each `document.cookie = c.toString()` assignment contributes one entry
  to the write list.
-/

/-- Model of a JS `Date` value: either constructed from a string
(`new Date(value)`) or from a millisecond count (`new Date(0)`). -/
inductive DateV where
  | ofString : String → DateV
  | ofMillis : Int → DateV
deriving DecidableEq

/-- The `Cookie` class of `Santa.ts`: name, value, optional expires /
path / domain, and a secure flag. -/
structure Cookie where
  name : String
  value : String
  expires : Option DateV
  path : Option String
  domain : Option String
  secure : Bool
deriving DecidableEq

/-- `new Cookie()`: the constructor sets `name = ''`, `value = ''`,
`secure = false` and leaves `expires`, `path`, `domain` undefined. -/
def newCookie : Cookie :=
  { name := "", value := "", expires := none, path := none, domain := none, secure := false }

/-- `Cookie.prototype.toString`: starts from `name=value` and appends
`; expires=...`, `; path=...`, `; domain=...`, `; secure=true` for each
truthy attribute.  `ds` renders a `Date` the way the JS template literal
would.  A defined `Date` is always truthy; a defined but empty string for
`path`/`domain` is falsy; `secure` is appended as `secure=${this.secure}`,
which interpolates to `secure=true` when the flag is set. -/
def Cookie.toString (ds : DateV → String) (c : Cookie) : String :=
  let s1 := c.name ++ "=" ++ c.value
  let s2 := s1 ++ (match c.expires with
    | some d => "; expires=" ++ ds d
    | none => "")
  let s3 := s2 ++ (match c.path with
    | some p => if p == "" then "" else "; path=" ++ p
    | none => "")
  let s4 := s3 ++ (match c.domain with
    | some d => if d == "" then "" else "; domain=" ++ d
    | none => "")
  s4 ++ (if c.secure then "; secure=true" else "")

/-- JS `String.prototype.split` with a single-character separator,
on character lists: `"".split(c)` is `[""]`, and every occurrence of the
separator starts a new chunk. -/
def splitOnChar (sep : Char) : List Char → List (List Char)
  | [] => [[]]
  | c :: cs =>
    let rest := splitOnChar sep cs
    if c == sep then
      [] :: rest
    else
      match rest with
      | h :: t => (c :: h) :: t
      | [] => [[c]]

/-- JS `split` on strings (single-character separator). -/
def jsSplit (sep : Char) (s : String) : List String :=
  (splitOnChar sep s.data).map String.mk

/-- Whitespace for JS `String.prototype.trim` (ASCII whitespace plus
vertical tab, form feed, NBSP and BOM). -/
def isJsWhitespace (c : Char) : Bool :=
  c.isWhitespace || c == Char.ofNat 11 || c == Char.ofNat 12 ||
    c == Char.ofNat 160 || c == Char.ofNat 65279

/-- Drop leading and trailing whitespace from a character list. -/
def trimChars (l : List Char) : List Char :=
  ((l.dropWhile isJsWhitespace).reverse.dropWhile isJsWhitespace).reverse

/-- JS `String.prototype.trim`. -/
def jsTrim (s : String) : String :=
  String.mk (trimChars s.data)

/-- JS regex `\w`: ASCII letter, digit or underscore. -/
def isWordChar (c : Char) : Bool :=
  c.isAlphanum || c == '_'

/-- One attempted match of the source's expires regex
`\W{3}, \d{2} \w{3} \d{4} \d{2}:\d{2}:\d{2} \w+$` starting at the head of
the given character list and, because of the `$` anchor and the trailing
`\w+`, necessarily consuming the whole list.  Note the source really
writes `\W{3}` (three NON-word characters) where the day name stands. -/
def matchFrom (l : List Char) : Bool :=
  match l with
  | w1 :: w2 :: w3 :: c1 :: sp1 :: n1 :: n2 :: sp2 :: a1 :: a2 :: a3 :: sp3 ::
      y1 :: y2 :: y3 :: y4 :: sp4 :: h1 :: h2 :: co1 :: mi1 :: mi2 :: co2 ::
      se1 :: se2 :: sp5 :: rest =>
    !isWordChar w1 && !isWordChar w2 && !isWordChar w3 &&
    c1 == ',' && sp1 == ' ' &&
    n1.isDigit && n2.isDigit && sp2 == ' ' &&
    isWordChar a1 && isWordChar a2 && isWordChar a3 && sp3 == ' ' &&
    y1.isDigit && y2.isDigit && y3.isDigit && y4.isDigit && sp4 == ' ' &&
    h1.isDigit && h2.isDigit && co1 == ':' && mi1.isDigit && mi2.isDigit &&
    co2 == ':' && se1.isDigit && se2.isDigit && sp5 == ' ' &&
    !rest.isEmpty && rest.all isWordChar
  | _ => false

/-- All suffixes of a character list (the candidate start positions of an
unanchored regex search). -/
def suffixes : List Char → List (List Char)
  | [] => [[]]
  | c :: cs => (c :: cs) :: suffixes cs

/-- `value.match(/\W{3}, \d{2} \w{3} \d{4} \d{2}:\d{2}:\d{2} \w+$/g)` is
non-null iff the pattern matches starting at some position of the value. -/
def expiresValueMatches (s : String) : Bool :=
  (suffixes s.data).any matchFrom

/-- A character of the body class of the source's path regex
`[a-z0-9-._~%!$&'()*+,;=:@\/]` with the `i` flag (`Char.ofNat 39` is the
apostrophe). -/
def isPathBodyChar (c : Char) : Bool :=
  c.isAlpha || c.isDigit ||
    ['-', '.', '_', '~', '%', '!', '$', '&', '(', ')', '*', '+', ',', ';',
      '=', ':', '@', '/'].contains c ||
    c == Char.ofNat 39

/-- `value.match(/^\/([a-z0-9-._~%!$&'()*+,;=:@\/]*)?$/i)`: a leading
slash followed by body-class characters, anchored at both ends. -/
def pathValueMatches (s : String) : Bool :=
  match s.data with
  | [] => false
  | c :: rest => c == '/' && rest.all isPathBodyChar

/-- One iteration of the `for (let part of cookieParts)` loop of
`Cookies.parse`: split the part on `=`, trim key and value, then either
record a recognized attribute on the current in-progress cookie, or — for
an unrecognized key — push the current cookie if its name is non-empty.
The loop body never assigns `currentCookie.name` or `currentCookie.value`. -/
def Cookies.parsePart (st : Cookie × List Cookie) (part : String) : Cookie × List Cookie :=
  let currentCookie := st.1
  let acc := st.2
  let keyvalue := jsSplit '=' part
  let key := jsTrim (keyvalue.headD "")
  let value := match keyvalue.get? 1 with
    | some v => if v == "" then "" else jsTrim v
    | none => ""
  if key == "expires" then
    ({ currentCookie with
        expires := if expiresValueMatches value then some (DateV.ofString value) else none },
      acc)
  else if key == "domain" then
    ({ currentCookie with domain := some value }, acc)
  else if key == "path" then
    ({ currentCookie with
        path := if pathValueMatches value then some value else none },
      acc)
  else if key == "secure" then
    ({ currentCookie with secure := true }, acc)
  else if currentCookie.name != "" then
    (newCookie, acc ++ [currentCookie])
  else
    (currentCookie, acc)

/-- `Cookies.parse`: split the raw cookie string on `;` and fold the loop
body over the parts, starting from a fresh `new Cookie()` and an empty
output array; the output array is returned. -/
def Cookies.parse (cookies : String) : List Cookie :=
  let cookieParts := jsSplit ';' cookies
  (cookieParts.foldl Cookies.parsePart (newCookie, [])).2

/-- The string keys that the JS `in` operator finds on an array value
besides its element indices: own `length` plus the inherited
`Array.prototype` / `Object.prototype` members.  None of them collides
with the cookie names used in this development. -/
def arrayPrototypeKeys : List String :=
  ["length", "constructor", "at", "concat", "copyWithin", "entries", "every",
   "fill", "filter", "find", "findIndex", "findLast", "findLastIndex", "flat",
   "flatMap", "forEach", "includes", "indexOf", "join", "keys", "lastIndexOf",
   "map", "pop", "push", "reduce", "reduceRight", "reverse", "shift", "slice",
   "some", "sort", "splice", "toLocaleString", "toReversed", "toSorted",
   "toSpliced", "toString", "unshift", "values", "with", "hasOwnProperty",
   "isPrototypeOf", "propertyIsEnumerable", "valueOf"]

/-- The JS expression `name in arr` for an array `arr`: true iff `name`
is the decimal string of an index below `arr.length`, or one of the
array's non-index property keys. -/
def jsInArray (name : String) (len : Nat) : Bool :=
  (List.range len).any (fun i => name == Nat.repr i) || arrayPrototypeKeys.contains name

/-- `Cookies.has`: the source writes `return name in this.cookies;`,
which is the JS property/index membership test on the array, not a search
over the cookies' `name` attributes. -/
def Cookies.has (cookies : List Cookie) (name : String) : Bool :=
  jsInArray name cookies.length

/-- `Cookies.get`: if `has(name)` then the value of the first cookie whose
`name` attribute matches (or `undefined` if `find` fails), else `undefined`. -/
def Cookies.get (cookies : List Cookie) (name : String) : Option String :=
  if Cookies.has cookies name then
    (cookies.find? (fun c => c.name == name)).map (fun c => c.value)
  else
    none

/-- In-place mutation of the first list element satisfying `p` (the JS
`find` returns a live reference into the array, so assigning to its
fields updates that array slot). -/
def updateFirst (p : Cookie → Bool) (f : Cookie → Cookie) : List Cookie → List Cookie
  | [] => []
  | c :: cs => if p c then f c :: cs else c :: updateFirst p f cs

/-- `Cookies.set`: if `has(name)`, mutate the first cookie found by name
(value, expires, path, domain, secure) and write it to the store,
returning `true`; if `find` fails nothing happens but `true` is still
returned; otherwise build a new cookie, push it, write it, return `false`.
The `secure` parameter is `boolean | undefined` and is stored as
`secure ? true : false`. -/
def Cookies.set (ds : DateV → String) (cookies : List Cookie) (name : String)
    (value : String) (expires : Option DateV) (path : Option String)
    (domain : Option String) (secure : Option Bool) :
    Bool × List Cookie × List String :=
  if Cookies.has cookies name then
    match cookies.find? (fun c => c.name == name) with
    | some c0 =>
      let c := { c0 with
        value := value, expires := expires, path := path,
        domain := domain, secure := secure == some true }
      (true,
       updateFirst (fun c => c.name == name)
         (fun c0 => { c0 with
           value := value, expires := expires, path := path,
           domain := domain, secure := secure == some true }) cookies,
       [Cookie.toString ds c])
    | none => (true, cookies, [])
  else
    let c : Cookie := {
      name := name, value := value, expires := expires,
      path := path, domain := domain, secure := secure == some true }
    (false, cookies ++ [c], [Cookie.toString ds c])

/-- The mutation `remove` and `clear` apply to a cookie: blank the value
and set `expires = new Date(0)`; all other fields are untouched. -/
def blankedCookie (c : Cookie) : Cookie :=
  { c with value := "", expires := some (DateV.ofMillis 0) }

/-- `Cookies.remove`: if `has(name)`, blank and epoch-expire the first
cookie found by name and write it to the store, returning `true` (still
`true` when `find` fails, with no mutation and no write); else `false`. -/
def Cookies.remove (ds : DateV → String) (cookies : List Cookie) (name : String) :
    Bool × List Cookie × List String :=
  if Cookies.has cookies name then
    match cookies.find? (fun c => c.name == name) with
    | some c0 =>
      (true,
       updateFirst (fun c => c.name == name) blankedCookie cookies,
       [Cookie.toString ds (blankedCookie c0)])
    | none => (true, cookies, [])
  else
    (false, cookies, [])

/-- `Cookies.clear`: if the collection is non-empty, blank and
epoch-expire every cookie, writing each one to the store, and return
`true`; else return `false` with no write. -/
def Cookies.clear (ds : DateV → String) (cookies : List Cookie) :
    Bool × List Cookie × List String :=
  if cookies.length > 0 then
    (true, cookies.map blankedCookie,
     cookies.map (fun c => Cookie.toString ds (blankedCookie c)))
  else
    (false, cookies, [])

/-- `Cookies.keys`: the names of all cookies in collection order. -/
def Cookies.keys (cookies : List Cookie) : List String :=
  cookies.map (fun c => c.name)

/-- Modelled from the spec: the fixed date pattern
`<DayName>, DD <MonName> YYYY HH:MM:SS <TZ>` that the spec claims
`expires` values are validated against — day and month names are
three-letter words and the timezone a non-empty word, matching the whole
value.  Declared only to exhibit the divergence from the code's regex,
whose `\W{3}` demands three non-word characters where the day name stands. -/
def specClaimedDateMatches (s : String) : Bool :=
  match s.data with
  | d1 :: d2 :: d3 :: c1 :: sp1 :: n1 :: n2 :: sp2 :: m1 :: m2 :: m3 :: sp3 ::
      y1 :: y2 :: y3 :: y4 :: sp4 :: h1 :: h2 :: co1 :: mi1 :: mi2 :: co2 ::
      se1 :: se2 :: sp5 :: rest =>
    d1.isAlpha && d2.isAlpha && d3.isAlpha && c1 == ',' && sp1 == ' ' &&
    n1.isDigit && n2.isDigit && sp2 == ' ' &&
    m1.isAlpha && m2.isAlpha && m3.isAlpha && sp3 == ' ' &&
    y1.isDigit && y2.isDigit && y3.isDigit && y4.isDigit && sp4 == ' ' &&
    h1.isDigit && h2.isDigit && co1 == ':' && mi1.isDigit && mi2.isDigit &&
    co2 == ':' && se1.isDigit && se2.isDigit && sp5 == ' ' &&
    !rest.isEmpty && rest.all Char.isAlpha
  | _ => false

/-- A fixed date renderer used to instantiate the `ds` parameter in the
concrete counterexamples and witnesses (its output never matters there). -/
def ds0 : DateV → String := fun _ => ""

example : Cookies.parse "a=1; b=2" = [] := by decide
example : expiresValueMatches "Wed, 09 Jun 2021 10:18:14 GMT" = false := by decide
example : specClaimedDateMatches "Wed, 09 Jun 2021 10:18:14 GMT" = true := by decide
example : Cookies.has [{
  name := "a", value := "1", expires := none, path := none,
  domain := none, secure := false }] "a" = false := by decide
example : Cookies.has [{
  name := "x", value := "1", expires := none, path := none,
  domain := none, secure := false }] "0" = true := by decide

/-- The loop body of `parse` never changes the in-progress cookie's name
away from `""` and, while the name is `""`, never appends to the output. -/
theorem parsePart_preserves (st : Cookie × List Cookie) (part : String)
    (h : st.1.name = "") :
    (Cookies.parsePart st part).1.name = "" ∧ (Cookies.parsePart st part).2 = st.2 := by
  unfold Cookies.parsePart
  dsimp only
  split_ifs <;> simp_all

/-- Folding the loop body from an in-progress cookie with empty name
leaves the output untouched and the name empty. -/
theorem foldl_parsePart_nil :
    ∀ (parts : List String) (st : Cookie × List Cookie), st.1.name = "" →
      (parts.foldl Cookies.parsePart st).1.name = "" ∧
        (parts.foldl Cookies.parsePart st).2 = st.2
  | [], _, h => ⟨h, rfl⟩
  | p :: ps, st, h => by
    have h1 := parsePart_preserves st p h
    have h2 := foldl_parsePart_nil ps (Cookies.parsePart st p) h1.1
    exact ⟨h2.1, h2.2.trans h1.2⟩

/-- `parse` returns the empty list on every input. -/
theorem parse_nil (s : String) : Cookies.parse s = [] := by
  unfold Cookies.parse
  exact (foldl_parsePart_nil (jsSplit ';' s) (newCookie, []) rfl).2

/-- A concrete collection holding one cookie named `a` (used to exhibit
the behaviour of `has`). -/
def cexCookieA : Cookie :=
  { name := "a", value := "1", expires := none, path := none, domain := none, secure := false }

/-- A concrete collection holding one cookie named `x` (used to exhibit
the behaviour of `remove` on an index-like name). -/
def cexCookieX : Cookie :=
  { name := "x", value := "1", expires := none, path := none, domain := none, secure := false }

/-- The collection obtained by calling `set("a", "1")` on an empty manager. -/
def afterSetState : List Cookie :=
  (Cookies.set ds0 [] "a" "1" none none none none).2.1

/-- C1: the claim states that `parse` assigns the current record's name and
value from a non-attribute part, so that parsing a string containing
`"a=1; b=2"` yields a record named `a` with value `1`.  Evaluating the code
at that input shows `parse` returns the empty list: the loop body never
assigns `currentCookie.name`, so nothing is ever appended. -/
theorem claim_c1 : Cookies.parse "a=1; b=2" = [] := parse_nil "a=1; b=2"

/-- C9: for every raw input string, `parse` returns the empty sequence of
records — the loop never assigns a name to the in-progress record, so the
non-empty-name guard that appends records never fires. -/
theorem claim_c9 (s : String) : Cookies.parse s = [] := parse_nil s

/-- C2: the claim states `has(name)` is true iff some record in the
collection has that name.  On a collection containing exactly one cookie
named `a`, a record with name `a` exists yet `has "a"` evaluates to
`false`, because the code's `name in this.cookies` is the JS
index/property membership test on the array, not a name search. -/
theorem claim_c2 :
    (∃ c ∈ [cexCookieA], c.name = "a") ∧ Cookies.has [cexCookieA] "a" = false := by
  decide

/-- C3: the claim states that immediately after `set(n, v)`, `get n = v`
and `has n = true`.  Calling `set("a", "1")` on the empty manager stores
the record (first conjunct), yet `get "a"` returns `none` and `has "a"`
returns `false`, because `get` is gated on the index-membership `has`. -/
theorem claim_c3 :
    (∃ c ∈ afterSetState, c.name = "a" ∧ c.value = "1") ∧
    Cookies.get afterSetState "a" = none ∧
    Cookies.has afterSetState "a" = false := by
  decide

/-- C4: the claim states that an `expires` value matching the pattern
`<DayName>, DD <MonName> YYYY HH:MM:SS <TZ>` — e.g.
`"Wed, 09 Jun 2021 10:18:14 GMT"` — is parsed and assigned to the current
record.  That value does match the spec's pattern (first conjunct), yet
the loop body leaves `expires` unset on it (second conjunct): the code's
regex begins with `\W{3}`, which demands three NON-word characters where
the day name stands, so the canonical date never matches. -/
theorem claim_c4 :
    specClaimedDateMatches "Wed, 09 Jun 2021 10:18:14 GMT" = true ∧
    (Cookies.parsePart (newCookie, [])
      "expires=Wed, 09 Jun 2021 10:18:14 GMT").1.expires = none := by
  decide

/-- C6: the claim states that `remove n` returns `false` (with no store
write) whenever no record has name `n`, and `get n` returns the absent
value.  On a collection holding one cookie named `x`, no record is named
`"0"` and indeed no write happens, the collection is unchanged and `get`
returns `none` — but `remove "0"` returns `true`, because the
index-membership `has` accepts the valid index string `"0"`. -/
theorem claim_c6 :
    (∀ c ∈ [cexCookieX], c.name ≠ "0") ∧
    (Cookies.remove ds0 [cexCookieX] "0").1 = true ∧
    (Cookies.remove ds0 [cexCookieX] "0").2.1 = [cexCookieX] ∧
    (Cookies.remove ds0 [cexCookieX] "0").2.2 = [] ∧
    Cookies.get [cexCookieX] "0" = none := by
  decide

/-- C7: `clear` returns `true` iff the collection is non-empty; the
resulting collection is the original one with every record blanked and
epoch-expired; every resulting record has empty value and epoch expiry;
and the store receives exactly the serializations of the resulting
records, one write per record — hence no write at all when the collection
is empty. -/
theorem claim_c7 (ds : DateV → String) (cookies : List Cookie) :
    ((Cookies.clear ds cookies).1 = true ↔ cookies ≠ []) ∧
    (Cookies.clear ds cookies).2.1 = cookies.map blankedCookie ∧
    (∀ c ∈ (Cookies.clear ds cookies).2.1,
      c.value = "" ∧ c.expires = some (DateV.ofMillis 0)) ∧
    (Cookies.clear ds cookies).2.2 =
      ((Cookies.clear ds cookies).2.1).map (Cookie.toString ds) ∧
    (Cookies.clear ds cookies).2.2.length = cookies.length := by
  cases cookies with
  | nil => simp [Cookies.clear]
  | cons c cs =>
    refine ⟨by simp [Cookies.clear], by simp [Cookies.clear], ?_, ?_, by simp [Cookies.clear]⟩
    · intro x hx
      simp only [Cookies.clear, List.length_cons, Nat.succ_pos, if_pos, List.mem_map] at hx
      obtain ⟨y, _, rfl⟩ := hx
      exact ⟨rfl, rfl⟩
    · simp [Cookies.clear, List.map_map]

/-- Membership in `updateFirst p f cs`: every element either was already
in `cs` or is `f` applied to an element of `cs`. -/
theorem mem_updateFirst {p : Cookie → Bool} {f : Cookie → Cookie} :
    ∀ {cs : List Cookie} {c : Cookie}, c ∈ updateFirst p f cs →
      c ∈ cs ∨ ∃ c0 ∈ cs, c = f c0
  | [], c, h => by simp [updateFirst] at h
  | a :: cs, c, h => by
    by_cases hpa : p a
    · simp only [updateFirst, if_pos hpa, List.mem_cons] at h
      rcases h with h | h
      · exact Or.inr ⟨a, List.mem_cons_self a cs, h⟩
      · exact Or.inl (List.mem_cons_of_mem a h)
    · simp only [updateFirst, if_neg hpa, List.mem_cons] at h
      rcases h with h | h
      · exact Or.inl (h ▸ List.mem_cons_self a cs)
      · rcases mem_updateFirst h with h | ⟨c0, hc0, he⟩
        · exact Or.inl (List.mem_cons_of_mem a h)
        · exact Or.inr ⟨c0, List.mem_cons_of_mem a hc0, he⟩

/-- When `find?` succeeds, `updateFirst` is `List.set` at the index of
the first match, applied to the found element. -/
theorem updateFirst_eq_set (p : Cookie → Bool) (f : Cookie → Cookie) :
    ∀ (cs : List Cookie) (c0 : Cookie), cs.find? p = some c0 →
      updateFirst p f cs = cs.set (cs.findIdx p) (f c0)
  | [], c0, h => by simp at h
  | a :: cs, c0, h => by
    by_cases hpa : p a
    · rw [List.find?_cons_of_pos _ hpa] at h
      obtain rfl : a = c0 := Option.some.inj h
      simp [updateFirst, hpa, List.findIdx_cons]
    · rw [List.find?_cons_of_neg _ hpa] at h
      have ih := updateFirst_eq_set p f cs c0 h
      simp [updateFirst, hpa, List.findIdx_cons, ih]

/-- When `find?` succeeds, the first match sits at index `findIdx`, it
satisfies the predicate, and everything before that index refutes it. -/
theorem find?_findIdx_spec (p : Cookie → Bool) :
    ∀ (cs : List Cookie) (c0 : Cookie), cs.find? p = some c0 →
      cs.get? (cs.findIdx p) = some c0 ∧ p c0 = true ∧
        ∀ j, j < cs.findIdx p → ∃ cj, cs.get? j = some cj ∧ p cj = false
  | [], c0, h => by simp at h
  | a :: cs, c0, h => by
    by_cases hpa : p a
    · rw [List.find?_cons_of_pos _ hpa] at h
      obtain rfl : a = c0 := Option.some.inj h
      refine ⟨by simp [List.findIdx_cons, hpa], hpa, ?_⟩
      intro j hj
      simp [List.findIdx_cons, hpa] at hj
    · rw [List.find?_cons_of_neg _ hpa] at h
      obtain ⟨h1, h2, h3⟩ := find?_findIdx_spec p cs c0 h
      refine ⟨?_, h2, ?_⟩
      · have hpa' : p a = false := Bool.eq_false_iff.mpr hpa
        rw [List.findIdx_cons, hpa', cond_false]
        simpa using h1
      intro j hj
      cases j with
      | zero => exact ⟨a, rfl, Bool.eq_false_iff.mpr hpa⟩
      | succ k =>
        have hk : k < cs.findIdx p := by
          simp [List.findIdx_cons, hpa] at hj
          omega
        obtain ⟨cj, hcj, hpcj⟩ := h3 k hk
        exact ⟨cj, by simpa using hcj, hpcj⟩

/-- C10: whenever `remove name` returns `true` and a record with that name
is in the collection, the first such record (at index `i`, everything
before it having a different name) is replaced by a copy in which only
`value` (now empty) and `expires` (now the epoch) differ — the record
update syntax keeps `name`, `path`, `domain` and `secure` — while the
collection keeps its length and every other position is unchanged. -/
theorem claim_c10 (ds : DateV → String) (cookies : List Cookie) (name : String)
    (h1 : (Cookies.remove ds cookies name).1 = true)
    (h2 : ∃ c ∈ cookies, c.name = name) :
    ∃ i c0, cookies.get? i = some c0 ∧ c0.name = name ∧
      (∀ j, j < i → ∃ cj, cookies.get? j = some cj ∧ cj.name ≠ name) ∧
      (Cookies.remove ds cookies name).2.1 =
        cookies.set i { c0 with value := "", expires := some (DateV.ofMillis 0) } ∧
      (Cookies.remove ds cookies name).2.1.length = cookies.length ∧
      (∀ j, j ≠ i → (Cookies.remove ds cookies name).2.1.get? j = cookies.get? j) := by
  have hfind : ∃ c0, cookies.find? (fun c => c.name == name) = some c0 := by
    obtain ⟨c, hc, hcn⟩ := h2
    have hs : (cookies.find? (fun c => c.name == name)).isSome := by
      rw [List.find?_isSome]
      exact ⟨c, hc, by simp [hcn]⟩
    exact Option.isSome_iff_exists.mp hs
  obtain ⟨c0, hc0⟩ := hfind
  have hhas : Cookies.has cookies name = true := by
    by_contra hh
    have hh' : Cookies.has cookies name = false := Bool.eq_false_iff.mpr hh
    simp [Cookies.remove, hh'] at h1
  obtain ⟨hg, hp, hlt⟩ := find?_findIdx_spec (fun c => c.name == name) cookies c0 hc0
  have hrm : (Cookies.remove ds cookies name).2.1 =
      cookies.set (cookies.findIdx (fun c => c.name == name))
        { c0 with value := "", expires := some (DateV.ofMillis 0) } := by
    have hu := updateFirst_eq_set (fun c => c.name == name) blankedCookie cookies c0 hc0
    simp only [Cookies.remove, hhas, if_pos, hc0]
    exact hu
  refine ⟨cookies.findIdx (fun c => c.name == name), c0, hg, by simpa using hp, ?_, hrm, ?_, ?_⟩
  · intro j hj
    obtain ⟨cj, hcj, hpcj⟩ := hlt j hj
    exact ⟨cj, hcj, by simpa using hpcj⟩
  · rw [hrm]
    exact List.length_set cookies _ _
  · intro j hj
    rw [hrm, List.get?_eq_getElem?, List.get?_eq_getElem?]
    exact List.getElem?_set_ne (fun h => hj h.symm)

/-- A concrete collection for the C10 witness: one cookie whose name is
the index string `0`, so that `has` (and hence `remove`) succeeds. -/
def rmCookie0 : Cookie :=
  { name := "0", value := "v", expires := none, path := none, domain := none, secure := false }

/-- Witness for C10: on the collection `[rmCookie0]` with name `"0"`,
both hypotheses hold concretely and the frame conclusion follows. -/
theorem claim_c10_witness :
    (Cookies.remove ds0 [rmCookie0] "0").1 = true ∧
    (∃ c ∈ [rmCookie0], c.name = "0") ∧
    (∃ i c0, ([rmCookie0] : List Cookie).get? i = some c0 ∧ c0.name = "0" ∧
      (∀ j, j < i → ∃ cj, ([rmCookie0] : List Cookie).get? j = some cj ∧ cj.name ≠ "0") ∧
      (Cookies.remove ds0 [rmCookie0] "0").2.1 =
        ([rmCookie0] : List Cookie).set i
          { c0 with value := "", expires := some (DateV.ofMillis 0) } ∧
      (Cookies.remove ds0 [rmCookie0] "0").2.1.length = ([rmCookie0] : List Cookie).length ∧
      (∀ j, j ≠ i →
        (Cookies.remove ds0 [rmCookie0] "0").2.1.get? j = ([rmCookie0] : List Cookie).get? j)) :=
  ⟨by decide, by decide, claim_c10 ds0 [rmCookie0] "0" (by decide) (by decide)⟩

/-- C8 (amended): `parse` only ever produces records with non-empty names
(vacuously, it produces none); `remove` and `clear` preserve the
invariant that every stored record has a non-empty name; and `set`
preserves it provided the name argument is non-empty.  (The original
claim, quantifying over arbitrary `set` calls, fails: `set` with the
empty name inserts an empty-name record — see the counterexample.) -/
theorem claim_c8 :
    (∀ s : String, ∀ c ∈ Cookies.parse s, c.name ≠ "") ∧
    (∀ (ds : DateV → String) (cookies : List Cookie) (n v : String) (e : Option DateV)
        (p d : Option String) (sec : Option Bool),
      (∀ c ∈ cookies, c.name ≠ "") → n ≠ "" →
        ∀ c ∈ (Cookies.set ds cookies n v e p d sec).2.1, c.name ≠ "") ∧
    (∀ (ds : DateV → String) (cookies : List Cookie) (n : String),
      (∀ c ∈ cookies, c.name ≠ "") →
        ∀ c ∈ (Cookies.remove ds cookies n).2.1, c.name ≠ "") ∧
    (∀ (ds : DateV → String) (cookies : List Cookie),
      (∀ c ∈ cookies, c.name ≠ "") →
        ∀ c ∈ (Cookies.clear ds cookies).2.1, c.name ≠ "") := by
  refine ⟨?_, ?_, ?_, ?_⟩
  · intro s c hc
    rw [parse_nil] at hc
    simp at hc
  · intro ds cookies n v e p d sec hinv hn c hc
    by_cases hhas : Cookies.has cookies n = true
    · rcases hfind : cookies.find? (fun c => c.name == n) with _ | c0
      · simp only [Cookies.set, hhas, if_pos, hfind] at hc
        exact hinv c hc
      · simp only [Cookies.set, hhas, if_pos, hfind] at hc
        rcases mem_updateFirst hc with h | ⟨c1, hc1, rfl⟩
        · exact hinv c h
        · exact hinv c1 hc1
    · have hhas' : Cookies.has cookies n = false := Bool.eq_false_iff.mpr hhas
      simp only [Cookies.set, hhas', Bool.false_eq_true, if_false, List.mem_append,
        List.mem_singleton] at hc
      rcases hc with h | rfl
      · exact hinv c h
      · exact hn
  · intro ds cookies n hinv c hc
    by_cases hhas : Cookies.has cookies n = true
    · rcases hfind : cookies.find? (fun c => c.name == n) with _ | c0
      · simp only [Cookies.remove, hhas, if_pos, hfind] at hc
        exact hinv c hc
      · simp only [Cookies.remove, hhas, if_pos, hfind] at hc
        rcases mem_updateFirst hc with h | ⟨c1, hc1, rfl⟩
        · exact hinv c h
        · exact hinv c1 hc1
    · have hhas' : Cookies.has cookies n = false := Bool.eq_false_iff.mpr hhas
      simp only [Cookies.remove, hhas', Bool.false_eq_true, if_false] at hc
      exact hinv c hc
  · intro ds cookies hinv c hc
    rcases cookies with _ | ⟨a, cs⟩
    · simp [Cookies.clear] at hc
    · simp only [Cookies.clear, List.length_cons, Nat.succ_pos, if_pos, List.mem_map] at hc
      obtain ⟨y, hy, rfl⟩ := hc
      exact hinv y hy

/-- Witness for C8: the `set` conjunct applied to the empty collection
and the non-empty name `a`, both hypotheses discharged concretely. -/
theorem claim_c8_witness :
    (∀ c ∈ ([] : List Cookie), c.name ≠ "") ∧ ("a" : String) ≠ "" ∧
    (∀ c ∈ (Cookies.set ds0 [] "a" "1" none none none none).2.1, c.name ≠ "") :=
  ⟨by simp, by decide,
    claim_c8.2.1 ds0 [] "a" "1" none none none none (by simp) (by decide)⟩

/-- Counterexample to C8 as stated: calling `set` with the empty name on
an empty manager inserts a record whose name is empty into the
collection, so the invariant is not preserved by every operation. -/
theorem claim_c8_cex :
    ∃ c ∈ (Cookies.set ds0 [] "" "v" none none none none).2.1, c.name = "" := by
  decide

/-- Concatenation of a list of already-present optional segments, each
preceded by the `; ` separator. -/
def segConcat : List String → String
  | [] => ""
  | s :: rest => "; " ++ s ++ segConcat rest

/-- `segConcat` distributes over list append. -/
theorem segConcat_append : ∀ (l1 l2 : List String),
    segConcat (l1 ++ l2) = segConcat l1 ++ segConcat l2
  | [], l2 => by simp [segConcat, String.empty_append]
  | s :: l1, l2 => by
    have ih := segConcat_append l1 l2
    show "; " ++ s ++ segConcat (l1 ++ l2) = "; " ++ s ++ segConcat l1 ++ segConcat l2
    rw [ih]
    exact (String.append_assoc ("; " ++ s) (segConcat l1) (segConcat l2)).symm

/-- The auxiliary loop of `String.intercalate` with separator `; `
appends `segConcat` of the remaining segments to the accumulator. -/
theorem intercalate_go_semi : ∀ (l : List String) (acc : String),
    String.intercalate.go acc "; " l = acc ++ segConcat l
  | [], acc => by simp [String.intercalate.go, segConcat, String.append_empty]
  | a :: as, acc => by
    simp only [String.intercalate.go, intercalate_go_semi as, segConcat, String.append_assoc]

/-- Joining a non-empty list of segments with `; ` is the head followed
by the `; `-prefixed concatenation of the tail. -/
theorem intercalate_semi (l : List String) (a : String) :
    String.intercalate "; " (a :: l) = a ++ segConcat l := by
  rw [String.intercalate]
  exact intercalate_go_semi l a

/-- C5 (amended): `toString` is exactly the `; `-joined list consisting of
`name=value` followed by the present optional segments in the order
expires, path, domain, secure — where the expires segment is present iff
`expires` is set, the path and domain segments are present iff set AND
non-empty (JS truthiness of a string), and a set secure flag contributes
the segment `secure=true` (the source writes `; secure=${this.secure}`),
not the bare token `secure` of the original claim. -/
theorem claim_c5 (ds : DateV → String) (c : Cookie) :
    Cookie.toString ds c = String.intercalate "; "
      ([c.name ++ "=" ++ c.value] ++
        (match c.expires with | some d0 => ["expires=" ++ ds d0] | none => []) ++
        (match c.path with
          | some p0 => if p0 == "" then [] else ["path=" ++ p0]
          | none => []) ++
        (match c.domain with
          | some d0 => if d0 == "" then [] else ["domain=" ++ d0]
          | none => []) ++
        (if c.secure then ["secure=true"] else [])) := by
  rcases c with ⟨nm, v, e, p, d, sec⟩
  have hE : (match e with | some d0 => "; expires=" ++ ds d0 | none => "") =
      segConcat (match e with | some d0 => ["expires=" ++ ds d0] | none => []) := by
    cases e with
    | none => rfl
    | some d0 =>
      show "; expires=" ++ ds d0 = "; " ++ ("expires=" ++ ds d0) ++ segConcat []
      have h0 : ("; " : String) ++ "expires=" = "; expires=" := by decide
      rw [segConcat, String.append_empty, ← String.append_assoc, h0]
  have hP : (match p with | some p0 => if p0 == "" then "" else "; path=" ++ p0 | none => "") =
      segConcat (match p with
        | some p0 => if p0 == "" then [] else ["path=" ++ p0]
        | none => []) := by
    cases p with
    | none => rfl
    | some p0 =>
      by_cases hp : p0 == ""
      · simp [hp, segConcat]
      · have h0 : ("; " : String) ++ "path=" = "; path=" := by decide
        simp only [hp, Bool.false_eq_true, if_false, segConcat, String.append_empty,
          ← String.append_assoc, h0]
  have hD : (match d with | some d0 => if d0 == "" then "" else "; domain=" ++ d0 | none => "") =
      segConcat (match d with
        | some d0 => if d0 == "" then [] else ["domain=" ++ d0]
        | none => []) := by
    cases d with
    | none => rfl
    | some d0 =>
      by_cases hd : d0 == ""
      · simp [hd, segConcat]
      · have h0 : ("; " : String) ++ "domain=" = "; domain=" := by decide
        simp only [hd, Bool.false_eq_true, if_false, segConcat, String.append_empty,
          ← String.append_assoc, h0]
  have hS : (if sec then "; secure=true" else "") =
      segConcat (if sec then ["secure=true"] else []) := by
    cases sec with
    | false => rfl
    | true =>
      show "; secure=true" = "; " ++ "secure=true" ++ segConcat []
      have h0 : ("; " : String) ++ "secure=true" = "; secure=true" := by decide
      rw [segConcat, String.append_empty, h0]
  simp only [List.append_assoc, List.singleton_append, List.cons_append, List.nil_append]
  rw [intercalate_semi, segConcat_append, segConcat_append, segConcat_append,
    ← hE, ← hP, ← hD, ← hS]
  simp only [Cookie.toString]
  dsimp only
  simp only [String.append_assoc]

/-- A record with only the secure flag set, for the C5 counterexample. -/
def secureCookie : Cookie :=
  { name := "a", value := "1", expires := none, path := none, domain := none, secure := true }

/-- Counterexample to C5 as stated: a record with the secure flag set
serializes to `a=1; secure=true`, not to `a=1; secure` with the bare
token the claim demands. -/
theorem claim_c5_cex :
    Cookie.toString ds0 secureCookie = "a=1; secure=true" ∧
    Cookie.toString ds0 secureCookie ≠ "a=1; secure" := by
  decide

/-- Witness for C7: the clear specification instantiated at the concrete
one-cookie collection `[cexCookieA]`. -/
theorem claim_c7_witness :
    ((Cookies.clear ds0 [cexCookieA]).1 = true ↔ ([cexCookieA] : List Cookie) ≠ []) ∧
    (Cookies.clear ds0 [cexCookieA]).2.1 = ([cexCookieA] : List Cookie).map blankedCookie ∧
    (∀ c ∈ (Cookies.clear ds0 [cexCookieA]).2.1,
      c.value = "" ∧ c.expires = some (DateV.ofMillis 0)) ∧
    (Cookies.clear ds0 [cexCookieA]).2.2 =
      ((Cookies.clear ds0 [cexCookieA]).2.1).map (Cookie.toString ds0) ∧
    (Cookies.clear ds0 [cexCookieA]).2.2.length = ([cexCookieA] : List Cookie).length :=
  claim_c7 ds0 [cexCookieA]

/-- Witness for C5: the amended serialization statement instantiated at
the concrete record `secureCookie`. -/
theorem claim_c5_witness :
    Cookie.toString ds0 secureCookie = String.intercalate "; "
      ([secureCookie.name ++ "=" ++ secureCookie.value] ++
        (match secureCookie.expires with
          | some d0 => ["expires=" ++ ds0 d0]
          | none => []) ++
        (match secureCookie.path with
          | some p0 => if p0 == "" then [] else ["path=" ++ p0]
          | none => []) ++
        (match secureCookie.domain with
          | some d0 => if d0 == "" then [] else ["domain=" ++ d0]
          | none => []) ++
        (if secureCookie.secure then ["secure=true"] else [])) :=
  claim_c5 ds0 secureCookie
